import Mathlib

/-!
# Verification of the agent-memory storage layer

A shallow embedding of `scripts/backends.py` and `scripts/memory.py` from the
`agent-memory-skill` repository, together with theorems settling the frozen
claims about the file backend, the graph backend and the `MemoryStore` facade.

Modelling conventions:
* Python's dynamically typed JSON values are the inductive `JVal`; an object
  represents a parsed Python dict (keys unique, insertion ordered).
* Each `datetime.now().isoformat()` call site becomes an explicit `String`
  argument, passed in source order.
* Raised Python exceptions become `Except PyErr`; the file's on-disk condition
  is the inductive `DiskState` (`missing` = `FileNotFoundError` on open,
  `unreadable` = `OSError`, `unparsable` = `JSONDecodeError`, `parsed` =
  a successful `json.load`).
* `str.lower` / `Char.isupper` / whitespace splitting are modelled with Lean's
  ASCII character primitives (the repository only manipulates ASCII data).
-/

set_option maxRecDepth 1000000
set_option maxHeartbeats 2000000

namespace AgentMemory

/-- A parsed JSON value, as produced by Python's `json.load`.  `obj` stands for
a Python dict whose keys are unique and insertion ordered. -/
inductive JVal where
  | null : JVal
  | bool (b : Bool) : JVal
  | num (n : Int) : JVal
  | str (s : String) : JVal
  | arr (xs : List JVal) : JVal
  | obj (fields : List (String × JVal)) : JVal

mutual

/-- Serialization in the style of Python's `json.dumps` with default
separators (string escaping is not modelled; the repository never parses this
output back). -/
def JVal.dumps : JVal → String
  | .null => "null"
  | .bool b => if b then "true" else "false"
  | .num n => toString n
  | .str s => "\"" ++ s ++ "\""
  | .arr xs => "[" ++ JVal.dumpsArr xs ++ "]"
  | .obj fs => "\x7b" ++ JVal.dumpsObj fs ++ "\x7d"

/-- Comma-separated rendering of a JSON array's elements. -/
def JVal.dumpsArr : List JVal → String
  | [] => ""
  | [x] => JVal.dumps x
  | x :: rest => JVal.dumps x ++ ", " ++ JVal.dumpsArr rest

/-- Comma-separated rendering of a JSON object's entries. -/
def JVal.dumpsObj : List (String × JVal) → String
  | [] => ""
  | [(k, v)] => "\"" ++ k ++ "\": " ++ JVal.dumps v
  | (k, v) :: rest => "\"" ++ k ++ "\": " ++ JVal.dumps v ++ ", " ++ JVal.dumpsObj rest

end

/-- The one kind of exception the embedded code can raise that the source does
not catch: Python's `TypeError` (from `cls(**data)` on a malformed record or
from iterating a non-iterable). -/
inductive PyErr where
  | typeError : PyErr
  deriving DecidableEq

/-- Iterating a Python value (`for m in data`): lists yield their elements,
strings yield their one-character substrings, dicts yield their keys; other
scalars raise `TypeError`. -/
def pyIter : JVal → Except PyErr (List JVal)
  | .arr xs => .ok xs
  | .str s => .ok (s.data.map (fun c => .str (String.mk [c])))
  | .obj fields => .ok (fields.map (fun kv => JVal.str kv.1))
  | _ => .error .typeError

/-- `str.lower` (ASCII). -/
def pyLower (s : String) : String := String.mk (s.data.map Char.toLower)

/-- `str.startswith`. -/
def pyStartsWith (s pre : String) : Bool := pre.data.isPrefixOf s.data

/-- `needle in haystack` on Python strings: contiguous-substring test. -/
def strContains (needle haystack : String) : Bool :=
  go needle.data haystack.data
where
  go (pat : List Char) : List Char → Bool
    | [] => pat.isEmpty
    | c :: rest => pat.isPrefixOf (c :: rest) || go pat rest

/-- `Memory`: the shared record dataclass of `backends.py` (fields typed as the
dataclass declares them). -/
structure Memory where
  id : String
  content : String
  category : String
  created_at : String
  updated_at : String
  metadata : List (String × JVal)

/-- `Memory.to_dict` / `dataclasses.asdict`. -/
def Memory.to_dict (m : Memory) : JVal :=
  .obj [("id", .str m.id), ("content", .str m.content), ("category", .str m.category),
        ("created_at", .str m.created_at), ("updated_at", .str m.updated_at),
        ("metadata", .obj m.metadata)]

/-- The field names of the `Memory` dataclass. -/
def Memory.fieldNames : List String :=
  ["id", "content", "category", "created_at", "updated_at", "metadata"]

/-- `Memory.from_dict`, i.e. `Memory(**data)`: raises `TypeError` unless `data`
is a mapping providing exactly the dataclass's fields (`metadata` optional,
defaulting to the empty dict); field values are checked against the dataclass's
declared types. -/
def Memory.from_dict (j : JVal) : Except PyErr Memory :=
  match j with
  | .obj fields =>
    match fields.lookup "id", fields.lookup "content", fields.lookup "category",
          fields.lookup "created_at", fields.lookup "updated_at" with
    | some (.str i), some (.str c), some (.str cat), some (.str ca), some (.str ua) =>
      if (fields.map Prod.fst).all (fun k => Memory.fieldNames.contains k) then
        match fields.lookup "metadata" with
        | none => .ok ⟨i, c, cat, ca, ua, []⟩
        | some (.obj md) => .ok ⟨i, c, cat, ca, ua, md⟩
        | some _ => .error .typeError
      else .error .typeError
    | _, _, _, _, _ => .error .typeError
  | _ => .error .typeError

/-- `[Memory.from_dict(m) for m in items]`: left-to-right, first failure
propagates. -/
def decodeMemories : List JVal → Except PyErr (List Memory)
  | [] => .ok []
  | j :: rest =>
    match Memory.from_dict j with
    | .ok m =>
      match decodeMemories rest with
      | .ok ms => .ok (m :: ms)
      | .error e => .error e
    | .error e => .error e

/-- What the file backend can observe about `~/.claude_memory/memories.json`. -/
inductive DiskState where
  | missing : DiskState
  | unreadable : DiskState
  | unparsable : DiskState
  | parsed (data : JVal) : DiskState

/-- The state of a `JSONBackend` instance: the on-disk file plus the in-memory
cache `self._memories`. -/
structure JSONState where
  disk : DiskState
  cache : List Memory

namespace JSONBackend

/-- The versioned storage envelope written by `JSONBackend.save`. -/
def envelope (memories : List Memory) : JVal :=
  .obj [("schema_version", .str "1.0"), ("memories", .arr (memories.map Memory.to_dict))]

/-- `JSONBackend.save`: set `self._memories` and rewrite the whole file as the
versioned envelope. -/
def save (memories : List Memory) (_s : JSONState) : JSONState :=
  { disk := .parsed (envelope memories), cache := memories }

/-- `JSONBackend.load`: read and parse the file; decode the versioned envelope,
auto-migrate a legacy bare list (re-saving it), return `[]` on an unknown
format or on `JSONDecodeError` / `FileNotFoundError` / `OSError`.  A
`TypeError` raised while decoding individual records is not caught. -/
def load (s : JSONState) : Except PyErr (List Memory) × JSONState :=
  match s.disk with
  | .missing => (.ok [], s)
  | .unreadable => (.ok [], s)
  | .unparsable => (.ok [], s)
  | .parsed data =>
    match data with
    | .obj fields =>
      if (fields.map Prod.fst).contains "schema_version" then
        let memories_data := (fields.lookup "memories").getD (.arr [])
        match pyIter memories_data with
        | .error e => (.error e, s)
        | .ok items =>
          match decodeMemories items with
          | .ok ms => (.ok ms, s)
          | .error e => (.error e, s)
      else (.ok [], s)
    | .arr items =>
      match decodeMemories items with
      | .ok ms => (.ok ms, save ms s)
      | .error e => (.error e, s)
    | _ => (.ok [], s)

/-- `JSONBackend.add`: append to the cache and persist. -/
def add (memory : Memory) (s : JSONState) : JSONState :=
  save (s.cache ++ [memory]) s

/-- Remove the first record with the given id, if any (the loop body of
`JSONBackend.delete`). -/
def removeFirstById (memory_id : String) : List Memory → Option (List Memory)
  | [] => none
  | m :: rest =>
    if m.id = memory_id then some rest
    else
      match removeFirstById memory_id rest with
      | some rest' => some (m :: rest')
      | none => none

/-- `JSONBackend.delete`: delete the first record with this id and persist;
return whether a record was found. -/
def delete (memory_id : String) (s : JSONState) : Bool × JSONState :=
  match removeFirstById memory_id s.cache with
  | some l => (true, save l s)
  | none => (false, s)

/-- The `continue` guard of the search loop: `if category and
memory.category != category` (note Python truthiness: an empty-string category
disables the filter). -/
def catSkip (category : Option String) (m : Memory) : Bool :=
  match category with
  | none => false
  | some c => (!(c == "")) && m.category != c

/-- `JSONBackend.search`: case-insensitive substring scan over the cache,
optionally filtered by category, truncated to `limit`. -/
def search (query : String) (category : Option String) (limit : Nat)
    (s : JSONState) : List Memory :=
  let query_lower := pyLower query
  (s.cache.filter
      (fun memory => (!catSkip category memory) && strContains query_lower (pyLower memory.content))).take
    limit

/-- `JSONBackend.get_all`: slice the cache (`[offset:]`, then `[:limit]`);
the `.copy()` is the identity on values. -/
def get_all (offset : Nat) (limit : Option Nat) (s : JSONState) : List Memory :=
  let memories := s.cache.drop offset
  match limit with
  | some l => memories.take l
  | none => memories

end JSONBackend

/-! ## SHA-256 (`hashlib.sha256(...).hexdigest()`), over `Nat` -/

namespace SHA256

/-- `2 ^ 32`. -/
def M32 : Nat := 4294967296

/-- Right rotation of a 32-bit word. -/
def rotr (n x : Nat) : Nat := (x / 2 ^ n + x % 2 ^ n * 2 ^ (32 - n)) % M32

/-- Logical right shift. -/
def shr (n x : Nat) : Nat := x / 2 ^ n

def ch (x y z : Nat) : Nat := (x &&& y) ^^^ ((x ^^^ 4294967295) &&& z)

def maj (x y z : Nat) : Nat := (x &&& y) ^^^ (x &&& z) ^^^ (y &&& z)

def bSig0 (x : Nat) : Nat := rotr 2 x ^^^ rotr 13 x ^^^ rotr 22 x

def bSig1 (x : Nat) : Nat := rotr 6 x ^^^ rotr 11 x ^^^ rotr 25 x

def sSig0 (x : Nat) : Nat := rotr 7 x ^^^ rotr 18 x ^^^ shr 3 x

def sSig1 (x : Nat) : Nat := rotr 17 x ^^^ rotr 19 x ^^^ shr 10 x

/-- The 64 round constants (decimal rendering of the FIPS 180-4 table). -/
def K : List Nat :=
  [1116352408, 1899447441, 3049323471, 3921009573, 961987163, 1508970993,
   2453635748, 2870763221, 3624381080, 310598401, 607225278, 1426881987,
   1925078388, 2162078206, 2614888103, 3248222580, 3835390401, 4022224774,
   264347078, 604807628, 770255983, 1249150122, 1555081692, 1996064986,
   2554220882, 2821834349, 2952996808, 3210313671, 3336571891, 3584528711,
   113926993, 338241895, 666307205, 773529912, 1294757372, 1396182291,
   1695183700, 1986661051, 2177026350, 2456956037, 2730485921, 2820302411,
   3259730800, 3345764771, 3516065817, 3600352804, 4094571909, 275423344,
   430227734, 506948616, 659060556, 883997877, 958139571, 1322822218,
   1537002063, 1747873779, 1955562222, 2024104815, 2227730452, 2361852424,
   2428436474, 2756734187, 3204031479, 3329325298]

/-- The initial hash value (decimal rendering of the FIPS 180-4 table). -/
def H0 : List Nat :=
  [1779033703, 3144134277, 1013904242, 2773480762, 1359893119, 2600822924,
   528734635, 1541459225]

/-- Big-endian byte rendering of a number, fixed width. -/
def toBytesBE : Nat → Nat → List Nat
  | 0, _ => []
  | n + 1, x => toBytesBE n (x / 256) ++ [x % 256]

/-- Merkle–Damgård padding of a byte message. -/
def pad (msg : List Nat) : List Nat :=
  msg ++ [0x80] ++ List.replicate ((119 - msg.length % 64) % 64) 0 ++ toBytesBE 8 (8 * msg.length)

/-- Big-endian packing of bytes into 32-bit words. -/
def toWordsBE : List Nat → List Nat
  | b0 :: b1 :: b2 :: b3 :: rest => (((b0 * 256 + b1) * 256 + b2) * 256 + b3) :: toWordsBE rest
  | _ => []

/-- Split a word list into 16-word blocks (fuelled for definitional
reduction). -/
def blocksOf16F : Nat → List Nat → List (List Nat)
  | 0, _ => []
  | _, [] => []
  | fuel + 1, ws => ws.take 16 :: blocksOf16F fuel (ws.drop 16)

/-- Split a word list into 16-word blocks. -/
def blocksOf16 (ws : List Nat) : List (List Nat) := blocksOf16F ws.length ws

/-- Extend the 16-word block to the 64-word message schedule (48 extension
rounds). -/
def expand (w : List Nat) : Nat → List Nat
  | 0 => w
  | n + 1 =>
    let t := w.length
    expand
      (w ++ [(sSig1 (w.getD (t - 2) 0) + w.getD (t - 7) 0 + sSig0 (w.getD (t - 15) 0) +
              w.getD (t - 16) 0) % M32])
      n

/-- One compression-function application. -/
def compressBlock (h : List Nat) (block : List Nat) : List Nat :=
  let w := expand block 48
  let st := (K.zip w).foldl
    (fun st kw =>
      match st with
      | [a, b, c, d, e, f, g, hh] =>
        let t1 := (hh + bSig1 e + ch e f g + kw.1 + kw.2) % M32
        let t2 := (bSig0 a + maj a b c) % M32
        [(t1 + t2) % M32, a, b, c, (d + t1) % M32, e, f, g]
      | other => other)
    h
  (h.zip st).map (fun p => (p.1 + p.2) % M32)

/-- SHA-256 of a byte message, as eight 32-bit words. -/
def sha256 (msg : List Nat) : List Nat :=
  (blocksOf16 (toWordsBE (pad msg))).foldl compressBlock H0

def hexDigit (n : Nat) : Char := if n < 10 then Char.ofNat (48 + n) else Char.ofNat (87 + n)

/-- Fixed-width lowercase big-endian hex rendering. -/
def toHexBE : Nat → Nat → List Char
  | 0, _ => []
  | n + 1, x => toHexBE n (x / 16) ++ [hexDigit (x % 16)]

/-- `.hexdigest()`: the 64-character lowercase hex digest. -/
def hexOfWords (ws : List Nat) : String := String.mk (ws.map (toHexBE 8)).flatten

/-- UTF-8 encoding of one character (`str.encode`). -/
def utf8Char (c : Char) : List Nat :=
  let n := c.toNat
  if n < 128 then [n]
  else if n < 2048 then [192 + n / 64, 128 + n % 64]
  else if n < 65536 then [224 + n / 4096, 128 + n / 64 % 64, 128 + n % 64]
  else [240 + n / 262144, 128 + n / 4096 % 64, 128 + n / 64 % 64, 128 + n % 64]

/-- UTF-8 encoding of a string. -/
def utf8 (s : String) : List Nat := (s.data.map utf8Char).flatten

/-- `hashlib.sha256(s.encode()).hexdigest()`. -/
def sha256hex (s : String) : String := hexOfWords (sha256 (utf8 s))

end SHA256

/-! ## The `MemoryStore` facade (`memory.py`), over the file backend -/

namespace MemoryStore

/-- `MemoryStore._generate_id`: truncated hex SHA-256 of
`f"{content}{timestamp}"`, where `timestamp` is the `datetime.now().isoformat()`
value sampled inside the call. -/
def _generate_id (content : String) (timestamp : String) : String :=
  (SHA256.sha256hex (content ++ timestamp)).take 12

/-- Python dict merge `{**base, **extra}`: base entries in order with matching
keys overridden, then the new keys of `extra`. -/
def pyDictMerge (base extra : List (String × JVal)) : List (String × JVal) :=
  base.map (fun kv =>
      match extra.lookup kv.1 with
      | some v => (kv.1, v)
      | none => kv) ++
    extra.filter (fun kv => !(base.map Prod.fst).contains kv.1)

/-- `MemoryStore.add_fact`.  `now` is the `datetime.now().isoformat()` sampled
at the top of the call; `t_id` is the one sampled inside `_generate_id`. -/
def add_fact (fact : String) (metadata : List (String × JVal)) (now t_id : String)
    (s : JSONState) : Memory × JSONState :=
  let memory : Memory :=
    { id := _generate_id fact t_id, content := fact, category := "semantic",
      created_at := now, updated_at := now, metadata := metadata }
  (memory, JSONBackend.add memory s)

/-- `MemoryStore.add_episode`: like `add_fact` but category `episodic` and a
`timestamp` entry injected into the metadata. -/
def add_episode (summary : String) (metadata : List (String × JVal)) (now t_id : String)
    (s : JSONState) : Memory × JSONState :=
  let memory : Memory :=
    { id := _generate_id summary t_id, content := summary, category := "episodic",
      created_at := now, updated_at := now,
      metadata := pyDictMerge [("timestamp", .str now)] metadata }
  (memory, JSONBackend.add memory s)

/-- The numbered step block rendered by `add_procedure`. -/
def renderSteps (steps : List String) : String :=
  String.intercalate "\n" (steps.enum.map (fun p => toString (p.1 + 1) ++ ". " ++ p.2))

/-- `MemoryStore.add_procedure`: renders the content from the step list, but
generates the id from the procedure *name* (`self._generate_id(name)`). -/
def add_procedure (name : String) (steps : List String) (metadata : List (String × JVal))
    (now t_id : String) (s : JSONState) : Memory × JSONState :=
  let content := "Procedure: " ++ name ++ "\nSteps:\n" ++ renderSteps steps
  let memory : Memory :=
    { id := _generate_id name t_id, content := content, category := "procedural",
      created_at := now, updated_at := now,
      metadata := pyDictMerge [("procedure_name", .str name), ("steps", .arr (steps.map .str))]
        metadata }
  (memory, JSONBackend.add memory s)

/-- The scan loop of `update_fact`: find the first semantic record whose
content equals `old_content` exactly, and rewrite it in place. -/
def updateFirst (old_content new_content now : String) :
    List Memory → Option (Memory × List Memory)
  | [] => none
  | m :: rest =>
    if m.category = "semantic" ∧ m.content = old_content then
      let m' : Memory := { m with content := new_content, updated_at := now }
      some (m', m' :: rest)
    else
      match updateFirst old_content new_content now rest with
      | some (u, rest') => some (u, m :: rest')
      | none => none

/-- `MemoryStore.update_fact`: linear scan over `self.memories`; on the first
exact semantic match, mutate content and `updated_at`, persist the full
collection, and return the record; otherwise return `None` untouched.  `now`
is the `datetime.now().isoformat()` sampled at the match. -/
def update_fact (old_content new_content now : String) (s : JSONState) :
    Option Memory × JSONState :=
  match updateFirst old_content new_content now s.cache with
  | some (u, l) => (some u, JSONBackend.save l s)
  | none => (none, s)

end MemoryStore

/-! ## The graph backend (`GraphBackend`), over an in-memory triple store -/

/-- A CogDB fact `(subject, predicate, object)` as written by `graph.put`. -/
abbrev Triple := String × String × String

/-- The state of a `GraphBackend` instance: the triples held by the graph
engine plus the authoritative cache `self._memories_cache` (a Python dict,
modelled as an insertion-ordered association list with unique keys). -/
structure GraphState where
  triples : List Triple
  cache : List (String × Memory)

namespace GraphBackend

/-- `graph.put`: record a fact (idempotent on an existing triple). -/
def put (t : Triple) (ts : List Triple) : List Triple :=
  if ts.contains t then ts else ts ++ [t]

/-- `graph.drop`: remove one specific fact. -/
def dropT (t : Triple) (ts : List Triple) : List Triple :=
  ts.filter (fun u => u != t)

/-- Python dict assignment `d[k] = v`: overwrite in place, else append. -/
def dictSet (k : String) (v : Memory) (d : List (String × Memory)) :
    List (String × Memory) :=
  if (d.map Prod.fst).contains k then
    d.map (fun kv => if kv.1 == k then (k, v) else kv)
  else d ++ [(k, v)]

/-- Python dict deletion `del d[k]`. -/
def dictDel (k : String) (d : List (String × Memory)) : List (String × Memory) :=
  d.filter (fun kv => kv.1 != k)

/-- The non-overlapping matches of the regex `"([^"]+)"` (fuelled scanner:
each recursive call strictly shrinks the text, so `length` fuel suffices). -/
def findQuotedF : Nat → List Char → List String
  | 0, _ => []
  | _, [] => []
  | fuel + 1, c :: rest =>
    if c = '"' then
      let body := rest.takeWhile (fun d => d != '"')
      let after := rest.dropWhile (fun d => d != '"')
      if body.isEmpty || after.isEmpty then findQuotedF fuel rest
      else String.mk body :: findQuotedF fuel after.tail
    else findQuotedF fuel rest

/-- `re.findall(r'"([^"]+)"', content)`. -/
def findQuoted (content : String) : List String :=
  findQuotedF content.data.length content.data

/-- Python `content.split()`: split on whitespace runs, dropping empties. -/
def pySplitWs (content : String) : List (List Char) :=
  (content.data.splitOnP Char.isWhitespace).filter (fun w => !w.isEmpty)

/-- The punctuation set of `word.strip('.,!?:;()[]{}')`. -/
def stripChars : List Char := ".,!?:;()[]\x7b\x7d".data

/-- Python `str.strip(chars)`: shave the given characters off both ends. -/
def pyStrip (w : List Char) : List Char :=
  ((w.dropWhile (stripChars.contains ·)).reverse.dropWhile (stripChars.contains ·)).reverse

/-- The capitalized-word stoplist of `_extract_entities`. -/
def stoplist : List String := ["the", "a", "an", "this", "that", "user", "i"]

/-- The loop body of `_extract_entities`' capitalized-word pass: strip the
surrounding punctuation, keep the token when it is non-empty, starts with an
uppercase character, is longer than one character, and its lowercase form is
not in the stoplist. -/
def tokenEntity (word : List Char) : Option String :=
  let clean := pyStrip word
  match clean with
  | [] => none
  | c0 :: _ =>
    if c0.isUpper && clean.length > 1 && !stoplist.contains (pyLower (String.mk clean)) then
      some (String.mk clean)
    else none

/-- `GraphBackend._extract_entities`: quoted substrings plus stripped
capitalized tokens of length > 1 not in the stoplist, then `list(set(...))`
(modelled as `dedup`; Python's set iteration order is unspecified). -/
def _extract_entities (content : String) : List String :=
  let quoted := findQuoted content
  let fromWords := (pySplitWs content).filterMap tokenEntity
  (quoted ++ fromWords).dedup

/-- The string a step value contributes to its `content` fact: the facade
always stores plain strings here; any other value is rendered (how the
out-of-scope graph engine stringifies non-string objects is not modelled). -/
def asNodeStr : JVal → String
  | .str s => s
  | v => JVal.dumps v

/-- `GraphBackend.add`: store the record's scalar properties, the `IS_A` edge,
one `MENTIONS` edge per extracted entity, plus the conditional `OCCURRED_ON`
and `HAS_STEP` facts, and update the cache.  For a procedural record,
`enumerate(memory.metadata["steps"])` raises an uncaught `TypeError` when the
stored `steps` value is not iterable; the facts written before that point
persist in the graph and the cache update never runs, so `add` returns the
raised error together with the state as the Python object would retain it. -/
def add (memory : Memory) (st : GraphState) : Option PyErr × GraphState :=
  let memory_node := "memory:" ++ memory.id
  let ts := put (memory_node, "type", "memory") st.triples
  let ts := put (memory_node, "id", memory.id) ts
  let ts := put (memory_node, "content", memory.content) ts
  let ts := put (memory_node, "category", memory.category) ts
  let ts := put (memory_node, "created_at", memory.created_at) ts
  let ts := put (memory_node, "updated_at", memory.updated_at) ts
  let ts := put (memory_node, "metadata", JVal.dumps (.obj memory.metadata)) ts
  let ts := put (memory_node, "IS_A", "category:" ++ memory.category) ts
  let ts := (_extract_entities memory.content).foldl
    (fun ts entity =>
      let entity_node := "entity:" ++ pyLower entity
      let ts := put (entity_node, "type", "entity") ts
      let ts := put (entity_node, "name", entity) ts
      put (memory_node, "MENTIONS", entity_node) ts)
    ts
  let ts :=
    if memory.category == "episodic" then
      put (memory_node, "OCCURRED_ON", "date:" ++ memory.created_at.take 10) ts
    else ts
  if memory.category == "procedural" then
    match memory.metadata.lookup "steps" with
    | none => (none, { triples := ts, cache := dictSet memory.id memory st.cache })
    | some v =>
      match pyIter v with
      | .error e => (some e, { triples := ts, cache := st.cache })
      | .ok steps =>
        let ts2 := steps.enum.foldl
          (fun ts p =>
            let step_node := "step:" ++ memory.id ++ ":" ++ toString p.1
            let ts := put (step_node, "type", "step") ts
            let ts := put (step_node, "content", asNodeStr p.2) ts
            let ts := put (step_node, "order", toString p.1) ts
            put (memory_node, "HAS_STEP", step_node) ts)
          ts
        (none, { triples := ts2, cache := dictSet memory.id memory st.cache })
  else (none, { triples := ts, cache := dictSet memory.id memory st.cache })

/-- The loop of `GraphBackend.save` (`for memory in memories: self.add(memory)`):
stops at the first raised error, which propagates to the caller. -/
def saveLoop : List Memory → GraphState → Option PyErr × GraphState
  | [], st => (none, st)
  | m :: rest, st =>
    match add m st with
    | (some e, st2) => (some e, st2)
    | (none, st2) => saveLoop rest st2

/-- `GraphBackend.save`: clear the cache and re-`add` every record (the engine
has no bulk clear); an error raised by `add` propagates. -/
def save (memories : List Memory) (st : GraphState) : Option PyErr × GraphState :=
  saveLoop memories { st with cache := [] }

/-- `GraphBackend.load`: the cached records, in cache order. -/
def load (st : GraphState) : List Memory :=
  st.cache.map Prod.snd

/-- `GraphBackend.delete`: miss returns `False`; otherwise drop the memory
node's `type` and `IS_A` facts (only those — `MENTIONS`/`HAS_STEP`/
`OCCURRED_ON` edges are left behind) and remove the cache entry. -/
def delete (memory_id : String) (st : GraphState) : Bool × GraphState :=
  match st.cache.lookup memory_id with
  | none => (false, st)
  | some m =>
    let memory_node := "memory:" ++ memory_id
    let ts := dropT (memory_node, "type", "memory") st.triples
    let ts := dropT (memory_node, "IS_A", "category:" ++ m.category) ts
    (true, { triples := ts, cache := dictDel memory_id st.cache })

/-- `GraphBackend.get_all`: slice the cache values. -/
def get_all (offset : Nat) (limit : Option Nat) (st : GraphState) : List Memory :=
  let memories := (st.cache.map Prod.snd).drop offset
  match limit with
  | some l => memories.take l
  | none => memories

/-- `graph.v(node).inc("MENTIONS").all()`: the subjects of `MENTIONS` facts
pointing at `node`. -/
def incMentions (ts : List Triple) (node : String) : List String :=
  (ts.filter (fun t => t.2.1 == "MENTIONS" && t.2.2 == node)).map Prod.fst

/-- `graph.v(node).out("MENTIONS").all()`: the objects of `MENTIONS` facts
leaving `node`. -/
def outMentions (ts : List Triple) (node : String) : List String :=
  (ts.filter (fun t => t.1 == node && t.2.1 == "MENTIONS")).map (fun t => t.2.2)

/-- `set.add`, modelled on a duplicate-free list (first-insertion order: the
claims about `find_related` are order independent, as Python's set iteration
order is unspecified). -/
def insertNew (l : List String) (x : String) : List String :=
  if l.contains x then l else l ++ [x]

/-- Python `node.replace(pat, "")` (all occurrences removed).  Fuelled: each
step either emits one character or discards `pat.length ≥ 1` characters. -/
def replaceAllF : Nat → List Char → List Char → List Char
  | 0, _, s => s
  | _, _, [] => []
  | fuel + 1, pat, c :: rest =>
    if pat.isPrefixOf (c :: rest) && !pat.isEmpty then
      replaceAllF fuel pat ((c :: rest).drop pat.length)
    else c :: replaceAllF fuel pat rest

/-- Python `s.replace(pat, "")`. -/
def pyReplace (s pat : String) : String :=
  String.mk (replaceAllF s.data.length pat.data s.data)

/-- The first phase of `find_related`: the set of memory ids one `MENTIONS`
hop in from the query entity (`related_ids` before the depth loop). -/
def relatedIds1 (st : GraphState) (query : String) : List String :=
  let entity_node := "entity:" ++ pyLower query
  let direct := incMentions st.triples entity_node
  (direct.filter (pyStartsWith · "memory:")).foldl
    (fun acc node => insertNew acc (pyReplace node "memory:")) []

/-- One iteration of `find_related`'s depth loop: add every memory mentioning
an entity mentioned by `mem_id`. -/
def expandStep (ts : List Triple) (acc : List String) (mem_id : String) : List String :=
  let mem_node := "memory:" ++ mem_id
  let entities := (outMentions ts mem_node).filter (pyStartsWith · "entity:")
  entities.foldl
    (fun acc2 ent =>
      let others := (incMentions ts ent).filter (pyStartsWith · "memory:")
      others.foldl (fun acc3 other => insertNew acc3 (pyReplace other "memory:")) acc2)
    acc

/-- `GraphBackend.find_related`: collect memory ids via one `MENTIONS` hop
from the query entity; when `depth > 1`, one further co-mention hop over the
snapshot of the first set; then return the cached records among them. -/
def find_related (query : String) (depth : Nat) (st : GraphState) : List Memory :=
  let ids1 := relatedIds1 st query
  let related_ids := if depth > 1 then ids1.foldl (expandStep st.triples) ids1 else ids1
  related_ids.filterMap (fun mid => st.cache.lookup mid)

end GraphBackend

/-! ## Claim-side readings for `find_related` (C6) -/

/-- Claim-side depth-1 set: the cached memories with an incoming `MENTIONS`
edge from the entity keyed by the case-folded query. -/
def relatedDepth1 (st : GraphState) (query : String) (m : Memory) : Prop :=
  (∃ kv ∈ st.cache, kv.2 = m) ∧
  ("memory:" ++ m.id, "MENTIONS", "entity:" ++ pyLower query) ∈ st.triples

/-- Claim-side co-mention expansion: a cached memory that mentions some entity
mentioned by a depth-1 memory. -/
def relatedExpansion (st : GraphState) (query : String) (m : Memory) : Prop :=
  (∃ kv ∈ st.cache, kv.2 = m) ∧
  ∃ m1, relatedDepth1 st query m1 ∧
    ∃ ent, ("memory:" ++ m1.id, "MENTIONS", ent) ∈ st.triples ∧
      ("memory:" ++ m.id, "MENTIONS", ent) ∈ st.triples

/-- Graph-state consistency: cache keys are the record ids and are unique,
every `MENTIONS` edge leaves a cached memory node and points at an
`entity:`-prefixed node, and no id collides with the `memory:` prefix (all
invariants of `add`-built states; `delete` can break the edge clause by
leaving orphaned `MENTIONS` edges behind). -/
def GraphWF (st : GraphState) : Prop :=
  (∀ kv ∈ st.cache, kv.1 = kv.2.id) ∧
  (st.cache.map Prod.fst).Nodup ∧
  (∀ t ∈ st.triples, t.2.1 = "MENTIONS" →
     (∃ kv ∈ st.cache, t.1 = "memory:" ++ kv.1) ∧
     pyStartsWith t.2.2 "entity:" = true) ∧
  (∀ kv ∈ st.cache, GraphBackend.pyReplace ("memory:" ++ kv.1) "memory:" = kv.1)

/-! ## Concrete instances used by witnesses and counterexamples -/

/-- A simple stored record. -/
def mAbc : Memory :=
  { id := "m1", content := "abc", category := "semantic",
    created_at := "2026-01-01T00:00:00", updated_at := "2026-01-01T00:00:00", metadata := [] }

/-- A second stored record. -/
def mDef : Memory :=
  { id := "m2", content := "User prefers Python", category := "semantic",
    created_at := "2026-01-02T00:00:00", updated_at := "2026-01-02T00:00:00", metadata := [] }

/-- A backend state holding `mAbc` then `mDef`. -/
def stTwo : JSONState := { disk := .parsed (JSONBackend.envelope [mAbc, mDef]), cache := [mAbc, mDef] }

/-- A file whose envelope contains a record object with no fields: parsing
succeeds but `Memory(**{})` raises `TypeError`. -/
def stBadRecord : JSONState :=
  { disk := .parsed (.obj [("schema_version", .str "1.0"), ("memories", .arr [.obj []])]),
    cache := [] }

/-- A freshly initialized graph backend. -/
def gEmpty : GraphState := { triples := [], cache := [] }

/-- A graph state holding `mAbc` and `mDef` keyed by their ids. -/
def gTwo : GraphState := { triples := [], cache := [("m1", mAbc), ("m2", mDef)] }

/-- The record produced by `add_procedure("deploy", ["test"])` with both
`datetime.now()` samples at the same instant. -/
def procMem : Memory :=
  (MemoryStore.add_procedure "deploy" ["test"] [] "2026-01-01T00:00:00" "2026-01-01T00:00:00"
    ⟨.missing, []⟩).1

/-- A record mentioning the entities `Edge` and `Felt`. -/
def mEdgeFelt : Memory :=
  { id := "a1", content := "Edge Felt", category := "semantic",
    created_at := "2026-01-01T00:00:00", updated_at := "2026-01-01T00:00:00", metadata := [] }

/-- A record mentioning only `Edge`. -/
def mEdge : Memory :=
  { id := "b1", content := "Edge", category := "semantic",
    created_at := "2026-01-01T00:00:01", updated_at := "2026-01-01T00:00:01", metadata := [] }

/-- A record mentioning only `Felt`. -/
def mFelt : Memory :=
  { id := "c1", content := "Felt", category := "semantic",
    created_at := "2026-01-01T00:00:02", updated_at := "2026-01-01T00:00:02", metadata := [] }

/-- A graph backend after adding the three records above. -/
def gAll3 : GraphState :=
  (GraphBackend.add mFelt
    (GraphBackend.add mEdge (GraphBackend.add mEdgeFelt gEmpty).2).2).2

/-- A procedural record whose `steps` metadata holds a non-iterable value:
the real `GraphBackend.add` raises `TypeError` from `enumerate(42)`. -/
def mBadSteps : Memory :=
  { id := "p1", content := "x", category := "procedural",
    created_at := "2026-01-01T00:00:00", updated_at := "2026-01-01T00:00:00",
    metadata := [("steps", .num 42)] }

/-- `gAll3` after `delete("a1")`: the `MENTIONS` edges of the deleted memory
remain as orphans. -/
def gCex : GraphState := (GraphBackend.delete "a1" gAll3).2

/-! ## Helper lemmas -/

/-- Decoding is left inverse to encoding on a single record. -/
theorem from_dict_to_dict (m : Memory) : Memory.from_dict (Memory.to_dict m) = .ok m := rfl

/-- Decoding is left inverse to encoding on a record list. -/
theorem decodeMemories_map_to_dict (ms : List Memory) :
    decodeMemories (ms.map Memory.to_dict) = .ok ms := by
  induction ms with
  | nil => rfl
  | cons m ms ih => simp [decodeMemories, from_dict_to_dict, ih]

/-- Loading the versioned envelope written by `save` recovers the records and
leaves the state untouched. -/
theorem load_save (ms : List Memory) (s : JSONState) :
    JSONBackend.load (JSONBackend.save ms s) = (.ok ms, JSONBackend.save ms s) := by
  have h : JSONBackend.load (JSONBackend.save ms s)
      = (match decodeMemories (ms.map Memory.to_dict) with
         | .ok ms2 => (Except.ok ms2, JSONBackend.save ms s)
         | .error e => (.error e, JSONBackend.save ms s)) := rfl
  rw [h, decodeMemories_map_to_dict]

/-! ## C10: `get_all` is a pure slice -/

/-- C10: for the file backend, `get_all(o, l)` is the positional slice of the
stored list — element `i` of the result is element `o + i` of the store when
`i < l`, and with no limit the result is exactly the store from position `o`
on.  (The `.copy()` in the source returns a fresh list; in this value-level
model the returned list is a value, so mutating it cannot affect the stored
collection.) -/
theorem get_all_is_slice (s : JSONState) (o k i : Nat) :
    (JSONBackend.get_all o (some k) s)[i]? = (if i < k then s.cache[o + i]? else none) ∧
    (JSONBackend.get_all o none s)[i]? = s.cache[o + i]? := by
  constructor
  · simp [JSONBackend.get_all, List.getElem?_take, List.getElem?_drop]
  · simp [JSONBackend.get_all, List.getElem?_drop]

/-! ## C4: `search` filtering, limit, and order -/

/-- C4 (counterexample): the claim promises that every record returned by
`search(q, c, k)` has category `c` whenever `c` is given, but passing the
empty-string category disables the filter (`if category and ...` — Python
truthiness), so a `semantic` record is returned for `c = ""`. -/
theorem search_empty_category_cex :
    JSONBackend.search "a" (some "") 5 stTwo = [mAbc] ∧ mAbc.category ≠ "" := by
  constructor
  · rfl
  · decide

/-- C4 (amended): `search(q, c, k)` returns at most `k` records, in store
order (a sublist of the cache); every returned record's content contains `q`
case-insensitively, and has category `c` whenever `c` is given and non-empty
(an empty-string `c` is falsy in Python and disables the filter). -/
theorem search_spec (q : String) (c : Option String) (k : Nat) (s : JSONState) :
    (JSONBackend.search q c k s).length ≤ k ∧
    (JSONBackend.search q c k s).Sublist s.cache ∧
    ∀ m ∈ JSONBackend.search q c k s,
      strContains (pyLower q) (pyLower m.content) = true ∧
      ∀ cat, c = some cat → cat ≠ "" → m.category = cat := by
  refine ⟨List.length_take_le _ _, ?_, ?_⟩
  · exact (List.take_sublist _ _).trans (List.filter_sublist _)
  · intro m hm
    simp only [JSONBackend.search] at hm
    have hmem := (List.take_sublist _ _).mem hm
    have hp := List.of_mem_filter hmem
    rw [Bool.and_eq_true] at hp
    refine ⟨hp.2, ?_⟩
    rintro cat rfl hne
    have hskip := hp.1
    simp only [JSONBackend.catSkip, Bool.not_eq_true'] at hskip
    rw [Bool.and_eq_false_iff] at hskip
    rcases hskip with h | h
    · have hc : cat = "" := by simpa using h
      exact absurd hc hne
    · rwa [bne_eq_false_iff_eq] at h

/-- C4 (witness for the amended theorem): a concrete search respecting the
limit and the (non-empty) category filter. -/
theorem search_spec_witness :
    (JSONBackend.search "python" (some "semantic") 1 stTwo).length ≤ 1 ∧
    ∀ m ∈ JSONBackend.search "python" (some "semantic") 1 stTwo, m.category = "semantic" := by
  refine ⟨(search_spec "python" (some "semantic") 1 stTwo).1, ?_⟩
  intro m hm
  exact ((search_spec "python" (some "semantic") 1 stTwo).2.2 m hm).2 "semantic" rfl (by decide)

/-! ## C1: totality of `load` -/

/-- C1 (counterexample): the claim says `load` never raises and classifies
every file state, but a parsed envelope whose `memories` entry holds a record
object with no fields makes `Memory.from_dict` raise an uncaught `TypeError`
(`load` only catches `JSONDecodeError`, `FileNotFoundError` and `OSError`). -/
theorem load_bad_record_cex : (JSONBackend.load stBadRecord).1 = .error .typeError := rfl

/-- C1 (amended): `load` returns an empty list for a missing, unreadable or
unparsable file and for parsed JSON that is neither a `schema_version`-keyed
object nor an array, and decodes a well-formed versioned envelope — but
malformed member records inside an envelope raise an uncaught decode error
(see the counterexample). -/
theorem load_total_spec (cache : List Memory) (j : JVal)
    (fields : List (String × JVal)) (xs : List JVal) (ms : List Memory) :
    (JSONBackend.load ⟨.missing, cache⟩ = (.ok [], ⟨.missing, cache⟩)) ∧
    (JSONBackend.load ⟨.unreadable, cache⟩ = (.ok [], ⟨.unreadable, cache⟩)) ∧
    (JSONBackend.load ⟨.unparsable, cache⟩ = (.ok [], ⟨.unparsable, cache⟩)) ∧
    ((match j with
      | .obj fs => (fs.map Prod.fst).contains "schema_version" = false
      | .arr _ => False
      | _ => True) →
      JSONBackend.load ⟨.parsed j, cache⟩ = (.ok [], ⟨.parsed j, cache⟩)) ∧
    ((fields.map Prod.fst).contains "schema_version" = true →
      fields.lookup "memories" = some (.arr xs) →
      decodeMemories xs = .ok ms →
      JSONBackend.load ⟨.parsed (.obj fields), cache⟩
        = (.ok ms, ⟨.parsed (.obj fields), cache⟩)) := by
  refine ⟨rfl, rfl, rfl, ?_, ?_⟩
  · intro hj
    match j with
    | .null => rfl
    | .bool b => rfl
    | .num n => rfl
    | .str s2 => rfl
    | .arr xs2 => exact absurd hj (by simp)
    | .obj fs =>
      simp only at hj
      simp only [JSONBackend.load, hj, Bool.false_eq_true, if_false]
  · intro h1 h2 h3
    simp only [JSONBackend.load, h1, if_true, h2, Option.getD_some, pyIter, h3]

/-- C1 (witness for the amended theorem): the three degraded file states, an
unrecognized shape, and a well-formed envelope, all at concrete inputs. -/
theorem load_total_spec_witness :
    JSONBackend.load ⟨.missing, []⟩ = (.ok [], ⟨.missing, []⟩) ∧
    JSONBackend.load ⟨.parsed (.str "junk"), []⟩ = (.ok [], ⟨.parsed (.str "junk"), []⟩) ∧
    JSONBackend.load ⟨.parsed (JSONBackend.envelope [mAbc]), []⟩
      = (.ok [mAbc], ⟨.parsed (JSONBackend.envelope [mAbc]), []⟩) := by
  refine ⟨(load_total_spec [] (.str "junk") [] [] []).1, ?_, ?_⟩
  · exact (load_total_spec [] (.str "junk") [] [] []).2.2.2.1 trivial
  · exact (load_total_spec [] (.str "junk")
      [("schema_version", .str "1.0"), ("memories", .arr [Memory.to_dict mAbc])]
      [Memory.to_dict mAbc] [mAbc]).2.2.2.2 rfl rfl rfl

/-! ## C2: one-time legacy migration -/

/-- C2: loading a bare-array legacy file decodes the records, caches them, and
rewrites the file as the versioned `{schema_version, memories}` envelope; a
subsequent `load` takes the envelope branch, returns the same records, and
leaves the state unchanged (no re-migration). -/
theorem legacy_migration (cache : List Memory) (xs : List JVal) (ms : List Memory)
    (h : decodeMemories xs = .ok ms) :
    JSONBackend.load ⟨.parsed (.arr xs), cache⟩
        = (.ok ms, JSONBackend.save ms ⟨.parsed (.arr xs), cache⟩) ∧
    (JSONBackend.save ms ⟨.parsed (.arr xs), cache⟩).cache = ms ∧
    (JSONBackend.save ms ⟨.parsed (.arr xs), cache⟩).disk = .parsed (JSONBackend.envelope ms) ∧
    JSONBackend.load (JSONBackend.save ms ⟨.parsed (.arr xs), cache⟩)
        = (.ok ms, JSONBackend.save ms ⟨.parsed (.arr xs), cache⟩) := by
  refine ⟨?_, rfl, rfl, load_save ms _⟩
  simp [JSONBackend.load, h]

/-- C2 (witness): a concrete legacy file holding one record. -/
theorem legacy_migration_witness :
    JSONBackend.load ⟨.parsed (.arr [Memory.to_dict mAbc]), []⟩
        = (.ok [mAbc], JSONBackend.save [mAbc] ⟨.parsed (.arr [Memory.to_dict mAbc]), []⟩) ∧
    JSONBackend.load (JSONBackend.save [mAbc] ⟨.parsed (.arr [Memory.to_dict mAbc]), []⟩)
        = (.ok [mAbc], JSONBackend.save [mAbc] ⟨.parsed (.arr [Memory.to_dict mAbc]), []⟩) :=
  ⟨(legacy_migration [] [Memory.to_dict mAbc] [mAbc] rfl).1,
   (legacy_migration [] [Memory.to_dict mAbc] [mAbc] rfl).2.2.2⟩

/-! ## C3: save-then-load round trip for both backends -/

/-- C3 (counterexample): a single procedural record with a non-iterable
`steps` metadata value has pairwise distinct ids, yet the graph backend's
`save` raises `TypeError` (from `enumerate(42)`) and the subsequent `load`
does not return the saved set. -/
theorem graph_save_raises_cex :
    (List.map Memory.id [mBadSteps]).Nodup ∧
    (GraphBackend.save [mBadSteps] gEmpty).1 = some .typeError ∧
    GraphBackend.load (GraphBackend.save [mBadSteps] gEmpty).2 = [] :=
  ⟨by decide, rfl, rfl⟩

/-- When a record's `steps` metadata is iterable (or absent, or the record is
not procedural), `add` raises nothing and updates the cache by dict
assignment. -/
theorem graph_add_ok (m : Memory) (st : GraphState)
    (hm : m.category = "procedural" →
      Option.all (fun v => (pyIter v).isOk) (m.metadata.lookup "steps") = true) :
    (GraphBackend.add m st).1 = none ∧
    (GraphBackend.add m st).2.cache = GraphBackend.dictSet m.id m st.cache := by
  by_cases hc : (m.category == "procedural") = true
  · have hcat : m.category = "procedural" := beq_iff_eq.mp hc
    cases hlk : m.metadata.lookup "steps" with
    | none =>
      constructor
      · simp [GraphBackend.add, hc, hlk]
      · simp [GraphBackend.add, hc, hlk]
    | some v =>
      have hiter := hm hcat
      rw [hlk] at hiter
      simp only [Option.all] at hiter
      cases hpi : pyIter v with
      | error e =>
        rw [hpi] at hiter
        simp [Except.isOk, Except.toBool] at hiter
      | ok steps =>
        constructor
        · simp [GraphBackend.add, hc, hlk, hpi]
        · simp [GraphBackend.add, hc, hlk, hpi]
  · constructor
    · simp [GraphBackend.add, hc]
    · simp [GraphBackend.add, hc]

/-- Re-adding well-formed records over a cache whose keys avoid their
(duplicate-free) ids raises nothing and appends them in order. -/
theorem saveLoop_spec (ms : List Memory) (st : GraphState)
    (hnd : (st.cache.map Prod.fst ++ ms.map Memory.id).Nodup)
    (hsteps : ∀ m ∈ ms, m.category = "procedural" →
      Option.all (fun v => (pyIter v).isOk) (m.metadata.lookup "steps") = true) :
    (GraphBackend.saveLoop ms st).1 = none ∧
    (GraphBackend.saveLoop ms st).2.cache = st.cache ++ ms.map (fun m => (m.id, m)) := by
  induction ms generalizing st with
  | nil => simp [GraphBackend.saveLoop]
  | cons m ms ih =>
    obtain ⟨hok, hcache⟩ := graph_add_ok m st (hsteps m (List.mem_cons_self m ms))
    have hstep : GraphBackend.saveLoop (m :: ms) st
        = GraphBackend.saveLoop ms (GraphBackend.add m st).2 := by
      rw [GraphBackend.saveLoop]
      rcases hadd : GraphBackend.add m st with ⟨e, st2⟩
      rw [hadd] at hok
      simp only at hok
      subst hok
      rfl
    have hnotin : m.id ∉ st.cache.map Prod.fst := by
      rw [List.nodup_append] at hnd
      exact fun hmem => hnd.2.2 hmem (by simp)
    have hcon : (st.cache.map Prod.fst).contains m.id = false := by
      rw [← Bool.not_eq_true]
      show ¬List.elem m.id (st.cache.map Prod.fst) = true
      rw [List.elem_iff]
      exact hnotin
    have hset : GraphBackend.dictSet m.id m st.cache = st.cache ++ [(m.id, m)] := by
      rw [GraphBackend.dictSet, hcon]
      simp
    have hcache2 : (GraphBackend.add m st).2.cache = st.cache ++ [(m.id, m)] := by
      rw [hcache, hset]
    have hrec := ih (GraphBackend.add m st).2 (by rw [hcache2]; simpa using hnd)
      (fun m' hm' => hsteps m' (List.mem_cons_of_mem m hm'))
    rw [hstep]
    refine ⟨hrec.1, ?_⟩
    rw [hrec.2, hcache2]
    simp

/-- C3 (amended): for both backends, `save(ms)` followed by `load()` returns
exactly the saved list (list equality, which implies identity of the id-keyed
record sets) when the ids are pairwise distinct and every procedural record's
`steps` metadata value is iterable — the only shape the facade ever stores;
on a non-iterable `steps` value the graph backend's `save` raises instead
(see the counterexample). -/
theorem save_load_roundtrip (s : JSONState) (g : GraphState) (ms : List Memory)
    (h : (ms.map Memory.id).Nodup)
    (hsteps : ∀ m ∈ ms, m.category = "procedural" →
      Option.all (fun v => (pyIter v).isOk) (m.metadata.lookup "steps") = true) :
    (JSONBackend.load (JSONBackend.save ms s)).1 = .ok ms ∧
    (GraphBackend.save ms g).1 = none ∧
    GraphBackend.load (GraphBackend.save ms g).2 = ms := by
  obtain ⟨hok, hcache⟩ := saveLoop_spec ms { g with cache := [] } (by simpa using h) hsteps
  refine ⟨by rw [load_save], hok, ?_⟩
  show ((GraphBackend.saveLoop ms { g with cache := [] }).2.cache.map Prod.snd) = ms
  rw [hcache]
  have hcomp : (Prod.snd ∘ fun m : Memory => (m.id, m)) = id := rfl
  simp [hcomp]

/-- C3 (witness): a concrete two-record round trip through both backends. -/
theorem save_load_roundtrip_witness :
    (JSONBackend.load (JSONBackend.save [mAbc, mDef] stTwo)).1 = .ok [mAbc, mDef] ∧
    GraphBackend.load (GraphBackend.save [mAbc, mDef] gEmpty).2 = [mAbc, mDef] := by
  have h := save_load_roundtrip stTwo gEmpty [mAbc, mDef] (by decide) (by decide)
  exact ⟨h.1, h.2.2⟩

/-! ## C9: `delete` semantics for both backends -/

/-- `delete`'s scan finds nothing when no record carries the id. -/
theorem removeFirstById_eq_none (idq : String) (l : List Memory)
    (h : idq ∉ l.map Memory.id) : JSONBackend.removeFirstById idq l = none := by
  induction l with
  | nil => rfl
  | cons m rest ih =>
    simp only [List.map_cons, List.mem_cons, not_or] at h
    rw [JSONBackend.removeFirstById, if_neg (fun he => h.1 he.symm), ih h.2]

/-- Under duplicate-free ids, `delete`'s scan removes every record carrying
the id. -/
theorem removeFirstById_spec (idq : String) (l : List Memory)
    (hnd : (l.map Memory.id).Nodup) (hin : idq ∈ l.map Memory.id) :
    ∃ l', JSONBackend.removeFirstById idq l = some l' ∧ ∀ m' ∈ l', m'.id ≠ idq := by
  induction l with
  | nil => simp at hin
  | cons m rest ih =>
    by_cases hm : m.id = idq
    · refine ⟨rest, ?_, ?_⟩
      · rw [JSONBackend.removeFirstById, if_pos hm]
      · intro m' hm' he
        rw [List.map_cons, List.nodup_cons] at hnd
        exact hnd.1 (hm ▸ he ▸ List.mem_map_of_mem Memory.id hm')
    · rw [List.map_cons, List.nodup_cons] at hnd
      rw [List.map_cons, List.mem_cons] at hin
      rcases hin with he | hin
      · exact absurd he.symm hm
      · obtain ⟨l', hl', hall⟩ := ih hnd.2 hin
        refine ⟨m :: l', ?_, ?_⟩
        · rw [JSONBackend.removeFirstById, if_neg hm, hl']
        · intro m' hm'
          rcases List.mem_cons.mp hm' with rfl | hmem
          · exact hm
          · exact hall m' hmem

/-- Association-list lookup misses exactly outside the key set. -/
theorem lookup_eq_none_of_not_mem (k : String) (l : List (String × Memory))
    (h : k ∉ l.map Prod.fst) : l.lookup k = none := by
  induction l with
  | nil => rfl
  | cons kv rest ih =>
    simp only [List.map_cons, List.mem_cons, not_or] at h
    cases kv with
    | mk k1 v =>
      rw [List.lookup_cons]
      have : (k == k1) = false := by
        rw [← Bool.not_eq_true, beq_iff_eq]
        exact h.1
      rw [this]
      exact ih h.2

/-- Association-list lookup hits inside the key set. -/
theorem lookup_isSome_of_mem (k : String) (l : List (String × Memory))
    (h : k ∈ l.map Prod.fst) : ∃ v, l.lookup k = some v := by
  induction l with
  | nil => simp at h
  | cons kv rest ih =>
    cases kv with
    | mk k1 v =>
      rw [List.lookup_cons]
      by_cases he : k = k1
      · rw [show (k == k1) = true from beq_iff_eq.mpr he]
        exact ⟨v, rfl⟩
      · rw [show (k == k1) = false from by rw [← Bool.not_eq_true, beq_iff_eq]; exact he]
        simp only [List.map_cons, List.mem_cons] at h
        exact ih (h.resolve_left he)

/-- `del d[k]` removes the key. -/
theorem dictDel_not_mem (k : String) (d : List (String × Memory)) :
    k ∉ (GraphBackend.dictDel k d).map Prod.fst := by
  intro hmem
  obtain ⟨kv, hkv, hfst⟩ := List.mem_map.mp hmem
  have := List.of_mem_filter hkv
  rw [hfst] at this
  simp at this

/-- C9: for both backends, deleting an absent id returns false and leaves the
state (hence the retrievable set) unchanged, never raising; deleting a present
id returns true and removes that id from subsequent `get_all` results (for the
file backend under the store's unique-id invariant, for the graph backend
under its cache-key invariant); and an immediately repeated delete of the same
id returns false. -/
theorem delete_spec (s : JSONState) (g : GraphState) (idq : String) :
    (idq ∉ s.cache.map Memory.id → JSONBackend.delete idq s = (false, s)) ∧
    (idq ∉ g.cache.map Prod.fst → GraphBackend.delete idq g = (false, g)) ∧
    ((s.cache.map Memory.id).Nodup → idq ∈ s.cache.map Memory.id →
       (JSONBackend.delete idq s).1 = true ∧
       (∀ m' ∈ JSONBackend.get_all 0 none (JSONBackend.delete idq s).2, m'.id ≠ idq) ∧
       (JSONBackend.delete idq (JSONBackend.delete idq s).2).1 = false) ∧
    (idq ∈ g.cache.map Prod.fst →
       (GraphBackend.delete idq g).1 = true ∧
       ((∀ kv ∈ g.cache, kv.1 = kv.2.id) →
          ∀ m' ∈ GraphBackend.get_all 0 none (GraphBackend.delete idq g).2, m'.id ≠ idq) ∧
       (GraphBackend.delete idq (GraphBackend.delete idq g).2).1 = false) := by
  refine ⟨?_, ?_, ?_, ?_⟩
  · intro h
    rw [JSONBackend.delete, removeFirstById_eq_none idq s.cache h]
  · intro h
    rw [GraphBackend.delete, lookup_eq_none_of_not_mem idq g.cache h]
  · intro hnd hin
    obtain ⟨l', hl', hall⟩ := removeFirstById_spec idq s.cache hnd hin
    have hdel : JSONBackend.delete idq s = (true, JSONBackend.save l' s) := by
      rw [JSONBackend.delete, hl']
    refine ⟨by rw [hdel], ?_, ?_⟩
    · intro m' hm'
      rw [hdel] at hm'
      exact hall m' hm'
    · have hni : idq ∉ l'.map Memory.id := by
        intro hc
        obtain ⟨m', hm', he⟩ := List.mem_map.mp hc
        exact hall m' hm' he
      have h2 : JSONBackend.delete idq (JSONBackend.save l' s) = (false, JSONBackend.save l' s) := by
        have hsc : (JSONBackend.save l' s).cache = l' := rfl
        rw [JSONBackend.delete, hsc, removeFirstById_eq_none idq _ hni]
      rw [hdel]
      show (JSONBackend.delete idq (JSONBackend.save l' s)).1 = false
      rw [h2]
  · intro hin
    obtain ⟨v, hv⟩ := lookup_isSome_of_mem idq g.cache hin
    have hdel : (GraphBackend.delete idq g).1 = true := by
      rw [GraphBackend.delete, hv]
    have hcache : (GraphBackend.delete idq g).2.cache = GraphBackend.dictDel idq g.cache := by
      rw [GraphBackend.delete, hv]
    refine ⟨hdel, ?_, ?_⟩
    · intro hwf m' hm'
      rw [GraphBackend.get_all, hcache] at hm'
      simp only [List.drop_zero] at hm'
      obtain ⟨kv, hkv, hsnd⟩ := List.mem_map.mp hm'
      have hkmem := List.mem_of_mem_filter hkv
      have hkne := List.of_mem_filter hkv
      rw [bne_iff_ne] at hkne
      rw [← hsnd, ← hwf kv hkmem]
      exact hkne
    · have hnone : List.lookup idq (GraphBackend.delete idq g).2.cache = none := by
        rw [hcache]
        exact lookup_eq_none_of_not_mem idq _ (dictDel_not_mem idq g.cache)
      rw [GraphBackend.delete, hnone]

/-- C9 (witness): concrete deletes — a miss, a hit removing the id, and a
repeated delete returning false, on both backends. -/
theorem delete_spec_witness :
    JSONBackend.delete "zzz" stTwo = (false, stTwo) ∧
    (JSONBackend.delete "m1" stTwo).1 = true ∧
    (JSONBackend.delete "m1" (JSONBackend.delete "m1" stTwo).2).1 = false ∧
    (GraphBackend.delete "m1" gTwo).1 = true ∧
    (GraphBackend.delete "m1" (GraphBackend.delete "m1" gTwo).2).1 = false := by
  refine ⟨(delete_spec stTwo gTwo "zzz").1 (by decide), ?_, ?_, ?_, ?_⟩
  · exact ((delete_spec stTwo gTwo "m1").2.2.1 (by decide) (by decide)).1
  · exact ((delete_spec stTwo gTwo "m1").2.2.1 (by decide) (by decide)).2.2
  · exact ((delete_spec stTwo gTwo "m1").2.2.2 (by decide)).1
  · exact ((delete_spec stTwo gTwo "m1").2.2.2 (by decide)).2.2

/-! ## C8: `update_fact` updates the first exact semantic match in place -/

/-- The scan of `update_fact` returns `None` when no semantic record matches
exactly. -/
theorem updateFirst_none (old new now : String) (l : List Memory)
    (h : ∀ m ∈ l, ¬(m.category = "semantic" ∧ m.content = old)) :
    MemoryStore.updateFirst old new now l = none := by
  induction l with
  | nil => rfl
  | cons a l ih =>
    rw [MemoryStore.updateFirst, if_neg (h a (List.mem_cons_self a l)),
      ih (fun m' hm' => h m' (List.mem_cons_of_mem a hm'))]

/-- The scan of `update_fact` rewrites the first match in place and keeps
everything else. -/
theorem updateFirst_append (old new now : String) (l₁ : List Memory) (m : Memory)
    (l₂ : List Memory)
    (h₁ : ∀ m' ∈ l₁, ¬(m'.category = "semantic" ∧ m'.content = old))
    (hm : m.category = "semantic" ∧ m.content = old) :
    MemoryStore.updateFirst old new now (l₁ ++ m :: l₂)
      = some ({ m with content := new, updated_at := now },
              l₁ ++ { m with content := new, updated_at := now } :: l₂) := by
  induction l₁ with
  | nil =>
    simp only [List.nil_append]
    rw [MemoryStore.updateFirst, if_pos hm]
  | cons a l₁ ih =>
    simp only [List.cons_append]
    rw [MemoryStore.updateFirst, if_neg (h₁ a (List.mem_cons_self a l₁)),
      ih (fun m' hm' => h₁ m' (List.mem_cons_of_mem a hm'))]

/-- C8: `update_fact(old, new)` scans in store order; when no semantic record
has content exactly `old` it returns `None` and changes nothing, and at the
first such record (index `i`) it rewrites only `content` and `updated_at`,
persists the full collection with only position `i` replaced (`List.set`), and
returns the updated record — whose `id`, `category`, `created_at` and
`metadata` are unchanged. -/
theorem update_fact_spec (old new now : String) (s : JSONState) :
    ((∀ m ∈ s.cache, ¬(m.category = "semantic" ∧ m.content = old)) →
       MemoryStore.update_fact old new now s = (none, s)) ∧
    (∀ i m_i, s.cache[i]? = some m_i →
       m_i.category = "semantic" → m_i.content = old →
       (∀ j m_j, j < i → s.cache[j]? = some m_j →
          ¬(m_j.category = "semantic" ∧ m_j.content = old)) →
       MemoryStore.update_fact old new now s =
         (some { m_i with content := new, updated_at := now },
          JSONBackend.save (s.cache.set i { m_i with content := new, updated_at := now }) s) ∧
       ({ m_i with content := new, updated_at := now }).id = m_i.id ∧
       ({ m_i with content := new, updated_at := now }).category = m_i.category ∧
       ({ m_i with content := new, updated_at := now }).created_at = m_i.created_at ∧
       ({ m_i with content := new, updated_at := now }).metadata = m_i.metadata) := by
  constructor
  · intro hno
    rw [MemoryStore.update_fact, updateFirst_none old new now s.cache hno]
  · intro i m_i hget hcat hcont hmin
    obtain ⟨hlt, hgetE⟩ := List.getElem?_eq_some.mp hget
    have hdecomp : s.cache = s.cache.take i ++ m_i :: s.cache.drop (i + 1) := by
      conv_lhs => rw [← List.take_append_drop i s.cache]
      rw [List.drop_eq_getElem_cons hlt, hgetE]
    have hpre : ∀ m' ∈ s.cache.take i, ¬(m'.category = "semantic" ∧ m'.content = old) := by
      intro m' hm'
      rw [List.mem_take_iff_getElem] at hm'
      obtain ⟨j, hj, hje⟩ := hm'
      refine hmin j m' (lt_of_lt_of_le hj (min_le_left _ _)) ?_
      rw [List.getElem?_eq_some]
      exact ⟨lt_of_lt_of_le hj (min_le_right _ _), hje⟩
    have h1 : MemoryStore.updateFirst old new now s.cache
        = some ({ m_i with content := new, updated_at := now },
                s.cache.take i ++ { m_i with content := new, updated_at := now }
                  :: s.cache.drop (i + 1)) := by
      conv_lhs => rw [hdecomp]
      exact updateFirst_append old new now _ m_i _ hpre ⟨hcat, hcont⟩
    have hset : s.cache.set i { m_i with content := new, updated_at := now }
        = s.cache.take i ++ { m_i with content := new, updated_at := now }
            :: s.cache.drop (i + 1) := by
      rw [List.set_eq_take_append_cons_drop, if_pos hlt]
    refine ⟨?_, rfl, rfl, rfl, rfl⟩
    rw [MemoryStore.update_fact, h1, ← hset]

/-- C8 (witness): a concrete hit (first record updated in place, rest kept, id
and category preserved) and a concrete miss (store unchanged). -/
theorem update_fact_spec_witness :
    MemoryStore.update_fact "abc" "xyz" "2026-02-01T00:00:00" stTwo
      = (some { mAbc with content := "xyz", updated_at := "2026-02-01T00:00:00" },
         JSONBackend.save
           [{ mAbc with content := "xyz", updated_at := "2026-02-01T00:00:00" }, mDef] stTwo) ∧
    MemoryStore.update_fact "nope" "x" "2026-02-01T00:00:00" stTwo = (none, stTwo) := by
  constructor
  · exact ((update_fact_spec "abc" "xyz" "2026-02-01T00:00:00" stTwo).2 0 mAbc rfl rfl rfl
      (fun j mj hj _ => absurd hj (Nat.not_lt_zero j))).1
  · exact (update_fact_spec "nope" "x" "2026-02-01T00:00:00" stTwo).1 (by decide)

/-! ## C5: entity extraction -/

/-- `List.contains` agrees with membership on strings (miss form). -/
theorem contains_eq_false_iff (l : List String) (x : String) :
    l.contains x = false ↔ x ∉ l := by
  rw [← Bool.not_eq_true]
  exact not_congr (by rw [show l.contains x = List.elem x l from rfl, List.elem_iff])

/-- The token pass accepts exactly the stripped tokens satisfying the four
conditions of the source's guard. -/
theorem tokenEntity_eq_some (w : List Char) (e : String) :
    GraphBackend.tokenEntity w = some e ↔
      (String.mk (GraphBackend.pyStrip w) = e ∧ GraphBackend.pyStrip w ≠ [] ∧
       (GraphBackend.pyStrip w).headI.isUpper = true ∧
       1 < (GraphBackend.pyStrip w).length ∧
       pyLower (String.mk (GraphBackend.pyStrip w)) ∉ GraphBackend.stoplist) := by
  rw [GraphBackend.tokenEntity]
  cases hc : GraphBackend.pyStrip w with
  | nil => simp [hc]
  | cons c0 rest =>
    simp only [hc, List.headI]
    rw [Option.ite_none_right_eq_some, Option.some_inj, Bool.and_eq_true, Bool.and_eq_true,
      decide_eq_true_eq, Bool.not_eq_true', contains_eq_false_iff]
    constructor
    · rintro ⟨⟨⟨hu, hl⟩, hs⟩, he⟩
      exact ⟨he, by simp, hu, hl, hs⟩
    · rintro ⟨he, hne, hu, hl, hs⟩
      exact ⟨⟨⟨hu, hl⟩, hs⟩, he⟩

/-- C5: `_extract_entities` returns a duplicate-free list whose members are
exactly the regex-quoted substrings together with the whitespace-delimited
tokens that, after punctuation stripping, are non-empty, start with an
uppercase character, have length greater than one, and whose lowercased form
avoids the stoplist. -/
theorem extract_entities_spec (content : String) :
    (GraphBackend._extract_entities content).Nodup ∧
    ∀ e, e ∈ GraphBackend._extract_entities content ↔
      (e ∈ GraphBackend.findQuoted content ∨
       ∃ w ∈ GraphBackend.pySplitWs content,
         String.mk (GraphBackend.pyStrip w) = e ∧ GraphBackend.pyStrip w ≠ [] ∧
         (GraphBackend.pyStrip w).headI.isUpper = true ∧
         1 < (GraphBackend.pyStrip w).length ∧
         pyLower (String.mk (GraphBackend.pyStrip w)) ∉ GraphBackend.stoplist) := by
  constructor
  · exact List.nodup_dedup _
  · intro e
    simp only [GraphBackend._extract_entities, List.mem_dedup, List.mem_append,
      List.mem_filterMap, tokenEntity_eq_some]

/-- C5 (witness): both branches of the characterization at concrete content —
a quoted entity and a capitalized token. -/
theorem extract_entities_spec_witness :
    "Python" ∈ GraphBackend._extract_entities "User prefers \"Python\", says Mark" ∧
    "Mark" ∈ GraphBackend._extract_entities "User prefers \"Python\", says Mark" := by
  constructor
  · exact ((extract_entities_spec _).2 "Python").mpr (Or.inl (by decide))
  · refine ((extract_entities_spec _).2 "Mark").mpr (Or.inr ⟨"Mark".data, by decide,
      by decide, by decide, by decide, by decide, by decide⟩)

/-! ## C7: facade id generation -/

/-- C7 (counterexample): the claim says every record created through the
facade has id `hash(content + timestamp)` truncated, but `add_procedure`
hashes the procedure *name*, not the rendered content, so the produced id
differs from the truncated digest of `content + created_at`. -/
theorem procedure_id_cex :
    procMem.id ≠ (SHA256.sha256hex (procMem.content ++ procMem.created_at)).take 12 := by
  have h : (procMem.id == (SHA256.sha256hex (procMem.content ++ procMem.created_at)).take 12)
      = false := by rfl
  exact ne_of_beq_false h

/-- C7 (amended): `add_fact` and `add_episode` give the record the truncated
(12 hex characters) SHA-256 digest of `content + timestamp`, where `timestamp`
is the `datetime.now().isoformat()` sampled inside `_generate_id`;
`add_procedure` hashes the procedure *name* instead of the content.
Consequently two `add_fact` calls with identical content at different
timestamps produce different ids whenever the truncated digests of the two
hash inputs differ (truncation to 12 hex characters admits collisions, so
timestamp distinctness alone cannot guarantee distinct ids). -/
theorem facade_id_spec (c name now t_id : String) (metadata : List (String × JVal))
    (steps : List String) (s : JSONState) (t t2 : String) :
    (MemoryStore.add_fact c metadata now t_id s).1.id
        = (SHA256.sha256hex (c ++ t_id)).take 12 ∧
    (MemoryStore.add_episode c metadata now t_id s).1.id
        = (SHA256.sha256hex (c ++ t_id)).take 12 ∧
    (MemoryStore.add_procedure name steps metadata now t_id s).1.id
        = (SHA256.sha256hex (name ++ t_id)).take 12 ∧
    ((SHA256.sha256hex (c ++ t)).take 12 ≠ (SHA256.sha256hex (c ++ t2)).take 12 →
       (MemoryStore.add_fact c metadata now t s).1.id
         ≠ (MemoryStore.add_fact c metadata now t2 s).1.id) := by
  refine ⟨?_, ?_, ?_, ?_⟩
  · simp only [MemoryStore.add_fact, MemoryStore._generate_id]
  · simp only [MemoryStore.add_episode, MemoryStore._generate_id]
  · simp only [MemoryStore.add_procedure, MemoryStore._generate_id]
  · intro h
    simp only [MemoryStore.add_fact, MemoryStore._generate_id]
    exact h

/-- C7 (witness): identical content at two concrete timestamps whose truncated
digests differ yields different ids. -/
theorem facade_id_spec_witness :
    (MemoryStore.add_fact "User prefers Python" [] "A" "2026-01-01T00:00:00"
        ⟨.missing, []⟩).1.id
      ≠ (MemoryStore.add_fact "User prefers Python" [] "A" "2026-01-01T00:00:01"
        ⟨.missing, []⟩).1.id :=
  (facade_id_spec "User prefers Python" "x" "A" "B" [] [] ⟨.missing, []⟩
    "2026-01-01T00:00:00" "2026-01-01T00:00:01").2.2.2 (ne_of_beq_false (by rfl))

/-! ## C6: `find_related` traversal -/

/-- `List.contains` agrees with membership on strings (hit form). -/
theorem contains_eq_true_iff (l : List String) (x : String) :
    l.contains x = true ↔ x ∈ l := by
  rw [show l.contains x = List.elem x l from rfl, List.elem_iff]

/-- Prefixing a string makes `startswith` true. -/
theorem pyStartsWith_append (p x : String) : pyStartsWith (p ++ x) p = true := by
  rw [pyStartsWith, String.data_append]
  rw [ List.isPrefixOf_iff_prefix]
  exact List.prefix_append _ _

/-- Membership after a `set.add`. -/
theorem mem_insertNew (l : List String) (x y : String) :
    y ∈ GraphBackend.insertNew l x ↔ y ∈ l ∨ y = x := by
  rw [GraphBackend.insertNew]
  by_cases h : l.contains x = true
  · rw [if_pos h]
    constructor
    · exact Or.inl
    · rintro (hy | rfl)
      · exact hy
      · exact (contains_eq_true_iff l y).mp h
  · rw [if_neg h]
    simp [List.mem_append]

/-- Membership after folding `set.add` over a list. -/
theorem mem_foldl_insertNew (f : String → String) (l acc : List String) (y : String) :
    y ∈ l.foldl (fun a b => GraphBackend.insertNew a (f b)) acc ↔
      y ∈ acc ∨ ∃ b ∈ l, f b = y := by
  induction l generalizing acc with
  | nil => simp
  | cons b l ih =>
    rw [List.foldl_cons, ih, mem_insertNew]
    constructor
    · rintro ((hy | rfl) | ⟨b', hb', rfl⟩)
      · exact Or.inl hy
      · exact Or.inr ⟨b, List.mem_cons_self b l, rfl⟩
      · exact Or.inr ⟨b', List.mem_cons_of_mem b hb', rfl⟩
    · rintro (hy | ⟨b', hb', rfl⟩)
      · exact Or.inl (Or.inl hy)
      · rcases List.mem_cons.mp hb' with rfl | hb2
        · exact Or.inl (Or.inr rfl)
        · exact Or.inr ⟨b', hb2, rfl⟩

/-- `inc("MENTIONS")` returns exactly the subjects of matching facts. -/
theorem mem_incMentions (ts : List Triple) (node x : String) :
    x ∈ GraphBackend.incMentions ts node ↔ (x, "MENTIONS", node) ∈ ts := by
  simp only [GraphBackend.incMentions, List.mem_map, List.mem_filter, Bool.and_eq_true,
    beq_iff_eq]
  constructor
  · rintro ⟨⟨a, b, c⟩, ⟨ht, h1, h2⟩, rfl⟩
    simp only at h1 h2
    rw [h1, h2] at ht
    exact ht
  · intro hmem
    exact ⟨(x, "MENTIONS", node), ⟨hmem, rfl, rfl⟩, rfl⟩

/-- `out("MENTIONS")` returns exactly the objects of matching facts. -/
theorem mem_outMentions (ts : List Triple) (node e : String) :
    e ∈ GraphBackend.outMentions ts node ↔ (node, "MENTIONS", e) ∈ ts := by
  simp only [GraphBackend.outMentions, List.mem_map, List.mem_filter, Bool.and_eq_true,
    beq_iff_eq]
  constructor
  · rintro ⟨⟨a, b, c⟩, ⟨ht, h1, h2⟩, rfl⟩
    simp only at h1 h2
    rw [h1, h2] at ht
    exact ht
  · intro hmem
    exact ⟨(node, "MENTIONS", e), ⟨hmem, rfl, rfl⟩, rfl⟩

/-- Association-list lookup under unique keys is exactly membership. -/
theorem lookup_mem_iff (l : List (String × Memory)) (k : String) (v : Memory)
    (hnd : (l.map Prod.fst).Nodup) :
    List.lookup k l = some v ↔ (k, v) ∈ l := by
  induction l with
  | nil => simp
  | cons kv rest ih =>
    cases kv with
    | mk k1 v1 =>
      rw [List.map_cons, List.nodup_cons] at hnd
      rw [List.lookup_cons, List.mem_cons]
      by_cases he : k = k1
      · subst he
        rw [show (k == k) = true from beq_iff_eq.mpr rfl]
        constructor
        · rintro h
          injection h with h
          exact Or.inl (by rw [h])
        · rintro (h | h)
          · obtain ⟨-, hv⟩ := Prod.mk.injEq .. ▸ h
            rw [hv]
          · exact absurd (List.mem_map_of_mem Prod.fst h) hnd.1
      · rw [show (k == k1) = false from by rw [← Bool.not_eq_true, beq_iff_eq]; exact he]
        rw [ih hnd.2]
        constructor
        · exact Or.inr
        · rintro (h | h)
          · exact absurd (congrArg Prod.fst h) he
          · exact h

/-- Plain lookup success implies membership (no key condition needed). -/
theorem mem_of_lookup_eq_some (l : List (String × Memory)) (k : String) (v : Memory)
    (h : List.lookup k l = some v) : (k, v) ∈ l := by
  induction l with
  | nil => simp at h
  | cons kv rest ih =>
    cases kv with
    | mk k1 v1 =>
      rw [List.lookup_cons] at h
      by_cases he : k = k1
      · subst he
        rw [show (k == k) = true from beq_iff_eq.mpr rfl] at h
        injection h with h
        rw [← h]
        exact List.mem_cons_self _ _
      · rw [show (k == k1) = false from by rw [← Bool.not_eq_true, beq_iff_eq]; exact he] at h
        exact List.mem_cons_of_mem _ (ih h)

/-- Membership in `find_related`'s first phase. -/
theorem mem_relatedIds1 (st : GraphState) (q y : String) :
    y ∈ GraphBackend.relatedIds1 st q ↔
      ∃ node, (node, "MENTIONS", "entity:" ++ pyLower q) ∈ st.triples ∧
        pyStartsWith node "memory:" = true ∧
        GraphBackend.pyReplace node "memory:" = y := by
  simp only [GraphBackend.relatedIds1]
  rw [mem_foldl_insertNew (fun node => GraphBackend.pyReplace node "memory:")]
  simp only [List.mem_filter, mem_incMentions, List.not_mem_nil, false_or, and_assoc]

/-- Under the graph invariant, the first phase collects exactly the cached ids
one `MENTIONS` hop from the query entity. -/
theorem mem_relatedIds1_wf (st : GraphState) (q y : String) (hwf : GraphWF st) :
    y ∈ GraphBackend.relatedIds1 st q ↔
      ∃ kv ∈ st.cache, kv.1 = y ∧
        ("memory:" ++ y, "MENTIONS", "entity:" ++ pyLower q) ∈ st.triples := by
  obtain ⟨hwf1, hwf2, hwf3, hwf4⟩ := hwf
  rw [mem_relatedIds1]
  constructor
  · rintro ⟨node, hedge, hsw, hstrip⟩
    obtain ⟨kv, hkv, hnode0⟩ := (hwf3 _ hedge rfl).1
    have hnode : node = "memory:" ++ kv.1 := hnode0
    have hky : kv.1 = y := by
      rw [hnode, hwf4 kv hkv] at hstrip
      exact hstrip
    refine ⟨kv, hkv, hky, ?_⟩
    rw [← hky, ← hnode]
    exact hedge
  · rintro ⟨kv, hkv, hky, hedge⟩
    refine ⟨"memory:" ++ y, hedge, ?_, ?_⟩
    · exact pyStartsWith_append "memory:" y
    · rw [← hky]
      exact hwf4 kv hkv

/-- Membership after the inner fold of the depth loop (over an arbitrary
entity list). -/
theorem mem_foldl_inner (ts : List Triple) (l acc : List String) (y : String) :
    y ∈ l.foldl (fun acc2 ent =>
        ((GraphBackend.incMentions ts ent).filter (pyStartsWith · "memory:")).foldl
          (fun acc3 other => GraphBackend.insertNew acc3 (GraphBackend.pyReplace other "memory:"))
          acc2) acc ↔
      y ∈ acc ∨ ∃ ent ∈ l,
        ∃ o ∈ (GraphBackend.incMentions ts ent).filter (pyStartsWith · "memory:"),
          GraphBackend.pyReplace o "memory:" = y := by
  induction l generalizing acc with
  | nil => simp
  | cons e l ih =>
    rw [List.foldl_cons, ih,
      mem_foldl_insertNew (fun o => GraphBackend.pyReplace o "memory:")]
    constructor
    · rintro ((hy | ⟨o, ho, rfl⟩) | ⟨ent, hent, o, ho, rfl⟩)
      · exact Or.inl hy
      · exact Or.inr ⟨e, List.mem_cons_self e l, o, ho, rfl⟩
      · exact Or.inr ⟨ent, List.mem_cons_of_mem e hent, o, ho, rfl⟩
    · rintro (hy | ⟨ent, hent, o, ho, rfl⟩)
      · exact Or.inl (Or.inl hy)
      · rcases List.mem_cons.mp hent with rfl | hent2
        · exact Or.inl (Or.inr ⟨o, ho, rfl⟩)
        · exact Or.inr ⟨ent, hent2, o, ho, rfl⟩

/-- Membership after one expansion step of the depth loop. -/
theorem mem_expandStep (ts : List Triple) (acc : List String) (mid y : String) :
    y ∈ GraphBackend.expandStep ts acc mid ↔
      y ∈ acc ∨ ∃ ent, ("memory:" ++ mid, "MENTIONS", ent) ∈ ts ∧
        pyStartsWith ent "entity:" = true ∧
        ∃ o, (o, "MENTIONS", ent) ∈ ts ∧ pyStartsWith o "memory:" = true ∧
          GraphBackend.pyReplace o "memory:" = y := by
  simp only [GraphBackend.expandStep]
  rw [mem_foldl_inner]
  constructor
  · rintro (hy | ⟨ent, hentmem, o, homem, hstrip⟩)
    · exact Or.inl hy
    · rw [List.mem_filter] at hentmem homem
      rw [mem_outMentions] at hentmem
      rw [mem_incMentions] at homem
      exact Or.inr ⟨ent, hentmem.1, hentmem.2, o, homem.1, homem.2, hstrip⟩
  · rintro (hy | ⟨ent, hedge, hsw, o, hoedge, hosw, hstrip⟩)
    · exact Or.inl hy
    · refine Or.inr ⟨ent, ?_, o, ?_, hstrip⟩
      · rw [List.mem_filter, mem_outMentions]
        exact ⟨hedge, hsw⟩
      · rw [List.mem_filter, mem_incMentions]
        exact ⟨hoedge, hosw⟩

/-- Membership after the whole depth loop. -/
theorem mem_foldl_expandStep (ts : List Triple) (l acc : List String) (y : String) :
    y ∈ l.foldl (GraphBackend.expandStep ts) acc ↔
      y ∈ acc ∨ ∃ mid ∈ l, ∃ ent, ("memory:" ++ mid, "MENTIONS", ent) ∈ ts ∧
        pyStartsWith ent "entity:" = true ∧
        ∃ o, (o, "MENTIONS", ent) ∈ ts ∧ pyStartsWith o "memory:" = true ∧
          GraphBackend.pyReplace o "memory:" = y := by
  induction l generalizing acc with
  | nil => simp
  | cons mid l ih =>
    rw [List.foldl_cons, ih, mem_expandStep]
    constructor
    · rintro ((hy | ⟨ent, h1, h2, o, h3, h4, rfl⟩) | ⟨mid', hmid', ent, h1, h2, o, h3, h4, rfl⟩)
      · exact Or.inl hy
      · exact Or.inr ⟨mid, List.mem_cons_self mid l, ent, h1, h2, o, h3, h4, rfl⟩
      · exact Or.inr ⟨mid', List.mem_cons_of_mem mid hmid', ent, h1, h2, o, h3, h4, rfl⟩
    · rintro (hy | ⟨mid', hmid', ent, h1, h2, o, h3, h4, rfl⟩)
      · exact Or.inl (Or.inl hy)
      · rcases List.mem_cons.mp hmid' with rfl | hmid2
        · exact Or.inl (Or.inr ⟨ent, h1, h2, o, h3, h4, rfl⟩)
        · exact Or.inr ⟨mid', hmid2, ent, h1, h2, o, h3, h4, rfl⟩

/-- C6 (amended): on graph states whose `MENTIONS` edges all leave live cached
memories (true of add-built states; `delete` can break it by orphaning edges),
`find_related(q, 1)` returns exactly the memories with an incoming `MENTIONS`
edge from the entity keyed by the case-folded `q`; for depth ≥ 2 it returns
that set unioned with every memory mentioning an entity mentioned by some
depth-1 memory; and every depth above 2 gives the same result as depth 2 (the
last clause holds for all states). -/
theorem find_related_spec (st : GraphState) (q : String) (m : Memory) (hwf : GraphWF st) :
    (m ∈ GraphBackend.find_related q 1 st ↔ relatedDepth1 st q m) ∧
    (∀ d, 2 ≤ d →
       (m ∈ GraphBackend.find_related q d st ↔
         (relatedDepth1 st q m ∨ relatedExpansion st q m))) ∧
    (∀ d, 2 < d → GraphBackend.find_related q d st = GraphBackend.find_related q 2 st) := by
  obtain ⟨hwf1, hwf2, hwf3, hwf4⟩ := hwf
  have hids : ∀ y, y ∈ GraphBackend.relatedIds1 st q ↔
      ∃ kv ∈ st.cache, kv.1 = y ∧
        ("memory:" ++ y, "MENTIONS", "entity:" ++ pyLower q) ∈ st.triples :=
    fun y => mem_relatedIds1_wf st q y ⟨hwf1, hwf2, hwf3, hwf4⟩
  have hd1 : ∀ mm, (∃ mid ∈ GraphBackend.relatedIds1 st q, List.lookup mid st.cache = some mm)
      ↔ relatedDepth1 st q mm := by
    intro mm
    constructor
    · rintro ⟨mid, hmid, hlk⟩
      obtain ⟨kv, hkv, hkey, hedge⟩ := (hids mid).mp hmid
      have hmem : (mid, mm) ∈ st.cache := mem_of_lookup_eq_some _ _ _ hlk
      have hid : mid = mm.id := hwf1 (mid, mm) hmem
      refine ⟨⟨(mid, mm), hmem, rfl⟩, ?_⟩
      rw [← hid]
      exact hedge
    · rintro ⟨⟨kv, hkv, hkv2⟩, hedge⟩
      have hk1 : kv.1 = mm.id := by rw [hwf1 kv hkv, hkv2]
      refine ⟨mm.id, ?_, ?_⟩
      · rw [hids]
        exact ⟨kv, hkv, hk1, hedge⟩
      · rw [lookup_mem_iff _ _ _ hwf2]
        have hpair : (mm.id, mm) = kv := Prod.ext hk1.symm hkv2.symm
        rw [hpair]
        exact hkv
  refine ⟨?_, ?_, ?_⟩
  · have heq : GraphBackend.find_related q 1 st
        = (GraphBackend.relatedIds1 st q).filterMap (fun mid => st.cache.lookup mid) := by
      simp only [GraphBackend.find_related]
      rw [if_neg (by omega)]
    rw [heq, List.mem_filterMap]
    exact hd1 m
  · intro d hd
    have heq : GraphBackend.find_related q d st
        = ((GraphBackend.relatedIds1 st q).foldl (GraphBackend.expandStep st.triples)
            (GraphBackend.relatedIds1 st q)).filterMap (fun mid => st.cache.lookup mid) := by
      simp only [GraphBackend.find_related]
      rw [if_pos (by omega)]
    rw [heq, List.mem_filterMap]
    constructor
    · rintro ⟨mid, hmid, hlk⟩
      rw [mem_foldl_expandStep] at hmid
      rcases hmid with hmid | ⟨mid0, hmid0, ent, heOut, hswEnt, o, heIn, hswO, hstrip⟩
      · exact Or.inl ((hd1 m).mp ⟨mid, hmid, hlk⟩)
      · have hmem : (mid, m) ∈ st.cache := mem_of_lookup_eq_some _ _ _ hlk
        have hid : mid = m.id := hwf1 (mid, m) hmem
        obtain ⟨kv0, hkv0, hk0, hedge0⟩ := (hids mid0).mp hmid0
        have hk0id : mid0 = kv0.2.id := by rw [← hwf1 kv0 hkv0, hk0]
        obtain ⟨kv1, hkv1, ho0⟩ := (hwf3 _ heIn rfl).1
        have ho : o = "memory:" ++ kv1.1 := ho0
        have hmid_eq : kv1.1 = mid := by
          rw [ho, hwf4 kv1 hkv1] at hstrip
          exact hstrip
        refine Or.inr ⟨⟨(mid, m), hmem, rfl⟩, kv0.2, ⟨⟨kv0, hkv0, rfl⟩, ?_⟩, ent, ?_, ?_⟩
        · rw [← hk0id]
          exact hedge0
        · rw [← hk0id]
          exact heOut
        · rw [← hid, ← hmid_eq, ← ho]
          exact heIn
    · rintro (hrel | ⟨⟨kv, hkv, hkv2⟩, m1, ⟨⟨kv1, hkv1, hkv12⟩, hedge1⟩, ent, he1, he2⟩)
      · obtain ⟨mid, hmid, hlk⟩ := (hd1 m).mpr hrel
        refine ⟨mid, ?_, hlk⟩
        rw [mem_foldl_expandStep]
        exact Or.inl hmid
      · have hk1id : kv1.1 = m1.id := by rw [hwf1 kv1 hkv1, hkv12]
        have hkid : kv.1 = m.id := by rw [hwf1 kv hkv, hkv2]
        have hswEnt : pyStartsWith ent "entity:" = true := (hwf3 _ he1 rfl).2
        refine ⟨m.id, ?_, ?_⟩
        · rw [mem_foldl_expandStep]
          refine Or.inr ⟨m1.id, ?_, ent, he1, hswEnt, "memory:" ++ m.id, he2,
            pyStartsWith_append _ _, ?_⟩
          · rw [hids]
            exact ⟨kv1, hkv1, hk1id, hedge1⟩
          · rw [← hkid]
            exact hwf4 kv hkv
        · rw [lookup_mem_iff _ _ _ hwf2]
          have hpair : (m.id, m) = kv := Prod.ext hkid.symm hkv2.symm
          rw [hpair]
          exact hkv
  · intro d hd
    simp only [GraphBackend.find_related]
    rw [if_pos (by omega : d > 1), if_pos (by omega : (2 : Nat) > 1)]

/-- C6 (counterexample): after deleting the memory `a1` (which mentioned both
`Edge` and `Felt`), its orphaned `MENTIONS` edges still expand the depth-2
traversal, so `find_related("Edge", 2)` returns the `Felt`-only memory even
though no live depth-1 memory co-mentions an entity with it — the claim's
described union does not contain it. -/
theorem find_related_orphan_cex :
    mFelt ∈ GraphBackend.find_related "Edge" 2 gCex ∧
    ¬(relatedDepth1 gCex "Edge" mFelt ∨ relatedExpansion gCex "Edge" mFelt) := by
  constructor
  · have h : GraphBackend.find_related "Edge" 2 gCex = [mEdge, mFelt] := rfl
    rw [h]
    exact List.mem_cons_of_mem mEdge (List.mem_cons_self mFelt [])
  · rintro (⟨hmem, hedge⟩ | ⟨hmem, m1, ⟨⟨kv, hkv, hkv2⟩, hedge1⟩, ent, he1, he2⟩)
    · exact absurd hedge (by decide)
    · have hcache : gCex.cache = [("b1", mEdge), ("c1", mFelt)] := rfl
      rw [hcache] at hkv
      rcases List.mem_cons.mp hkv with rfl | hkv'
      · rw [← hkv2] at he1
        have hout : ent ∈ GraphBackend.outMentions gCex.triples
            ("memory:" ++ ("b1", mEdge).2.id) := (mem_outMentions _ _ _).mpr he1
        have hres : GraphBackend.outMentions gCex.triples ("memory:" ++ ("b1", mEdge).2.id)
            = ["entity:edge"] := rfl
        rw [hres] at hout
        have hent : ent = "entity:edge" := by simpa using hout
        subst hent
        exact absurd he2 (by decide)
      · rcases List.mem_cons.mp hkv' with rfl | hkv''
        · rw [← hkv2] at hedge1
          exact absurd hedge1 (by decide)
        · exact absurd hkv'' (List.not_mem_nil _)

/-- C6 (witness for the amended theorem): a delete-free concrete graph state
satisfying the invariant, with the depth-1 equivalence and the depth-3 =
depth-2 collapse instantiated. -/
theorem find_related_spec_witness :
    GraphWF gAll3 ∧
    (mEdge ∈ GraphBackend.find_related "Edge" 1 gAll3 ↔ relatedDepth1 gAll3 "Edge" mEdge) ∧
    GraphBackend.find_related "Edge" 3 gAll3 = GraphBackend.find_related "Edge" 2 gAll3 := by
  have hwf : GraphWF gAll3 := by
    unfold GraphWF
    decide
  exact ⟨hwf, (find_related_spec gAll3 "Edge" mEdge hwf).1,
    (find_related_spec gAll3 "Edge" mEdge hwf).2.2 3 (by omega)⟩

end AgentMemory
